import Mathlib

/-!
Verification of the document ingestion and grounded-retrieval query pipeline
of an agentic RAG service (NestJS + LangChain).  The TypeScript sources are
shallowly embedded below: strings are `List Char`, JavaScript regex-replace
passes become explicit scanners with the same left-to-right, non-overlapping,
greedy semantics, and the stateful service methods become pure functions that
also report which external collaborators they invoked.
-/

namespace Rag

/-! ## JavaScript string primitives -/

/-- Whitespace class used by JavaScript regex and trim (ASCII part). -/
def isSpaceJs (c : Char) : Bool :=
  c == ' ' || c == '\t' || c == '\n' || c == '\r' || c == '\x0B' || c == '\x0C'

/-- JavaScript trim: drop whitespace from both ends. -/
def jsTrim (t : List Char) : List Char :=
  ((t.dropWhile isSpaceJs).reverse.dropWhile isSpaceJs).reverse

/-- JavaScript includes: does the pattern occur as a contiguous substring. -/
def containsSub (pat : List Char) : List Char → Bool
  | [] => pat.isEmpty
  | c :: rest => pat.isPrefixOf (c :: rest) || containsSub pat rest

/-- JavaScript Set-based dedup: fold keeping the first occurrence of each
element, as in Array.from(new Set(xs)). -/
def jsSetDedup {α : Type} [DecidableEq α] (l : List α) : List α :=
  l.foldl (fun acc a => if a ∈ acc then acc else acc ++ [a]) []

/-- Deduplication keeping first-seen order, written as a direct scan with a
seen accumulator (the specification-side formulation). -/
def firstSeenFrom {α : Type} [DecidableEq α] : List α → List α → List α
  | _, [] => []
  | seen, x :: xs =>
    if x ∈ seen then firstSeenFrom seen xs else x :: firstSeenFrom (x :: seen) xs

/-- Deduplicate while preserving first-seen order. -/
def firstSeenDedup {α : Type} [DecidableEq α] (l : List α) : List α :=
  firstSeenFrom [] l

/-! ## PDF text normalizer (pdf.loader.ts) -/

/-- The AcroForm form-definition marker searched for in the raw byte stream. -/
def acroFormMarker : List Char := "/AcroForm".toList

/-- isBlankFormPdf: raw bytes contain the AcroForm marker and the extracted
text has more than 20 underscore characters. -/
def isBlankFormPdf (raw extractedText : List Char) : Bool :=
  containsSub acroFormMarker raw && decide (20 < extractedText.count '_')

/-- Scanner for the global regex matching slash-V, optional whitespace and a
parenthesized capture: each match yields the capture, scanning resumes after
the closing parenthesis; on failure the scan advances one character. -/
def extractVGo : Nat → List Char → List (List Char)
  | 0, _ => []
  | _ + 1, [] => []
  | fuel + 1, c :: rest =>
    if c == '/' then
      match rest with
      | v :: rest1 =>
        if v == 'V' then
          match rest1.dropWhile isSpaceJs with
          | p :: rest2 =>
            if p == '(' then
              let cap := rest2.takeWhile (fun d => !(d == ')'))
              match rest2.dropWhile (fun d => !(d == ')')) with
              | _ :: rest3 => cap :: extractVGo fuel rest3
              | [] => extractVGo fuel rest
            else extractVGo fuel rest
          | [] => extractVGo fuel rest
        else extractVGo fuel rest
      | [] => extractVGo fuel rest
    else extractVGo fuel rest

/-- All captures of the slash-V field-value pattern over the raw bytes. -/
def extractVAll (t : List Char) : List (List Char) :=
  extractVGo t.length t

/-- extractAcroFormValues: the captures, each trimmed, empty ones dropped. -/
def extractAcroFormValues (raw : List Char) : List (List Char) :=
  ((extractVAll raw).map jsTrim).filter (fun v => !v.isEmpty)

/-- Index of the last newline in a list, if any. -/
def lastNLIdx : List Char → Option Nat
  | [] => none
  | c :: rest =>
    match lastNLIdx rest with
    | some k => some (k + 1)
    | none => if c == '\n' then some 0 else none

/-- Replace-all for the pattern newline, greedy whitespace run, newline, by a
single newline (collapse multiple blank lines). -/
def collapseNLGo : Nat → List Char → List Char
  | 0, t => t
  | _ + 1, [] => []
  | fuel + 1, c :: rest =>
    if c == '\n' then
      match lastNLIdx (rest.takeWhile isSpaceJs) with
      | some k => '\n' :: collapseNLGo fuel (rest.drop (k + 1))
      | none => c :: collapseNLGo fuel rest
    else c :: collapseNLGo fuel rest

def collapseNL (t : List Char) : List Char := collapseNLGo t.length t

/-- The lone punctuation characters rejoined by the cleanup pipeline. -/
def isPunctJs (c : Char) : Bool :=
  c == ':' || c == '-' || c == ',' || c == '.'

/-- JavaScript word character class. -/
def isWordJs (c : Char) : Bool := c.isAlphanum || c == '_'

/-- Replace-all for newline, punctuation, newline by the punctuation and a
space (rejoin split punctuation). -/
def punctBothGo : Nat → List Char → List Char
  | 0, t => t
  | _ + 1, [] => []
  | fuel + 1, c :: rest =>
    if c == '\n' then
      match rest with
      | p :: d :: rest2 =>
        if isPunctJs p && d == '\n' then p :: ' ' :: punctBothGo fuel rest2
        else c :: punctBothGo fuel rest
      | _ => c :: punctBothGo fuel rest
    else c :: punctBothGo fuel rest

def punctBoth (t : List Char) : List Char := punctBothGo t.length t

/-- Replace-all for newline then punctuation by the punctuation alone
(rejoin trailing punctuation). -/
def punctTrailGo : Nat → List Char → List Char
  | 0, t => t
  | _ + 1, [] => []
  | fuel + 1, c :: rest =>
    if c == '\n' then
      match rest with
      | p :: rest2 =>
        if isPunctJs p then p :: punctTrailGo fuel rest2
        else c :: punctTrailGo fuel rest
      | _ => c :: punctTrailGo fuel rest
    else c :: punctTrailGo fuel rest

def punctTrail (t : List Char) : List Char := punctTrailGo t.length t

/-- Replace-all for punctuation then newline by the punctuation and a space
(rejoin leading punctuation). -/
def punctLeadGo : Nat → List Char → List Char
  | 0, t => t
  | _ + 1, [] => []
  | fuel + 1, c :: rest =>
    if isPunctJs c then
      match rest with
      | d :: rest2 =>
        if d == '\n' then c :: ' ' :: punctLeadGo fuel rest2
        else c :: punctLeadGo fuel rest
      | _ => c :: punctLeadGo fuel rest
    else c :: punctLeadGo fuel rest

def punctLead (t : List Char) : List Char := punctLeadGo t.length t

/-- Replace-all for word char, hyphen, space, word char by word char, hyphen,
word char (fix mid-word breaks); both word characters are consumed. -/
def hyphenFixGo : Nat → List Char → List Char
  | 0, t => t
  | _ + 1, [] => []
  | fuel + 1, c :: rest =>
    if isWordJs c then
      match rest with
      | d :: e :: f :: rest2 =>
        if d == '-' && e == ' ' && isWordJs f then
          c :: '-' :: f :: hyphenFixGo fuel rest2
        else c :: hyphenFixGo fuel rest
      | _ => c :: hyphenFixGo fuel rest
    else c :: hyphenFixGo fuel rest

def hyphenFix (t : List Char) : List Char := hyphenFixGo t.length t

/-- Replace-all for digit, newline, digit by the two digits (fix split
numbers); both digits are consumed. -/
def digitFixGo : Nat → List Char → List Char
  | 0, t => t
  | _ + 1, [] => []
  | fuel + 1, c :: rest =>
    if c.isDigit then
      match rest with
      | d :: e :: rest2 =>
        if d == '\n' && e.isDigit then c :: e :: digitFixGo fuel rest2
        else c :: digitFixGo fuel rest
      | _ => c :: digitFixGo fuel rest
    else c :: digitFixGo fuel rest

def digitFix (t : List Char) : List Char := digitFixGo t.length t

/-- JavaScript split on the newline character. -/
def splitNL : List Char → List (List Char)
  | [] => [[]]
  | c :: rest =>
    if c == '\n' then [] :: splitNL rest
    else
      match splitNL rest with
      | [] => [[c]]
      | l :: ls => (c :: l) :: ls

/-- Join lines with a newline character. -/
def joinNL (ls : List (List Char)) : List Char := List.intercalate ['\n'] ls

/-- cleanExtractedText: the deterministic cleanup pipeline, in source order:
collapse blank lines, the three punctuation rejoin passes, the hyphen-space
fix, the split-number fix, then trim each line and drop empty lines. -/
def cleanExtractedText (t : List Char) : List Char :=
  joinNL
    (((splitNL (digitFix (hyphenFix (punctLead (punctTrail (punctBoth (collapseNL t))))))).map
        jsTrim).filter (fun l => !l.isEmpty))

/-- loadPdfAsDocuments, final-text computation: blank forms take the
deduplicated AcroForm values newline-joined (falling back to the raw text
when none), other documents take the cleanup pipeline. -/
def normalizePdfText (raw baseText : List Char) : List Char :=
  if isBlankFormPdf raw baseText then
    let formValues := jsSetDedup (extractAcroFormValues raw)
    if formValues.isEmpty then baseText else joinNL formValues
  else cleanExtractedText baseText

/-! ## Query orchestrator (chat.service.ts, query) -/

/-- The two vector-store backends. -/
inductive StoreKind where
  | memory
  | qdrant
deriving DecidableEq, Repr

/-- A retrieved chunk as the query path sees it: its text and the optional
source metadata value. -/
structure ChunkDoc where
  pageContent : String
  source : Option String
deriving DecidableEq, Repr

/-- Shape of a query response; fields absent from a given return object are
none. -/
structure QueryResp where
  success : Bool
  message : Option String
  answer : Option String
  sources : Option (List String)
  contextCount : Option Nat
deriving DecidableEq, Repr

/-- The chunk source values with missing entries and the falsy empty string
dropped (map then filter by truthiness). -/
def chunkSources (docs : List ChunkDoc) : List String :=
  docs.filterMap (fun d =>
    match d.source with
    | some s => if s = "" then none else some s
    | none => none)

/-- Source attribution: Set-dedup of the truthy sources, capped at 10. -/
def sourcesOf (docs : List ChunkDoc) : List String :=
  (jsSetDedup (chunkSources docs)).take 10

/-- The no-context guidance answer, with a note depending on the backend. -/
def noContextAnswer (kind : StoreKind) : String :=
  "No indexed content yet. Please ingest documents first (e.g. POST /chat/upload)." ++
    (match kind with
     | .memory => " Note: the index is in-memory and is cleared when the server restarts."
     | .qdrant => " (Using Qdrant; ingest via POST /chat/upload or /chat/ingest.)")

/-- The query method: validation, then retrieval, then the no-context guard,
then generation and source attribution.  The retrieved chunks stand for what
the retriever would return; genAnswer for what the generation model would
produce.  The two booleans report whether the embedding provider (via
retriever.invoke) and the generation model (via ragChain.invoke) were
invoked. -/
def query (question : String) (contextDocs : List ChunkDoc) (kind : StoreKind)
    (genAnswer : String) : QueryResp × Bool × Bool :=
  if (jsTrim question.toList).isEmpty then
    ({ success := false, message := some "Question cannot be empty",
       answer := some "", sources := some [], contextCount := none }, false, false)
  else if contextDocs.isEmpty then
    ({ success := false, message := none, answer := some (noContextAnswer kind),
       sources := some [], contextCount := some 0 }, true, false)
  else
    ({ success := true, message := none, answer := some genAnswer,
       sources := some (sourcesOf contextDocs),
       contextCount := some contextDocs.length }, true, true)

/-! ## Document metadata and ingestion (chat.service.ts, ingest) -/

/-- JavaScript scalar metadata values, including undefined and null. -/
inductive JVal where
  | undef
  | jnull
  | jstr (s : String)
  | jnum (n : Int)
deriving DecidableEq, Repr

/-- A JavaScript object as an ordered key-value list. -/
abbrev JObj := List (String × JVal)

/-- Property lookup (keys of a well-formed object are distinct, so the first
binding is the binding). -/
def oget : JObj → String → Option JVal
  | [], _ => none
  | (k1, v1) :: rest, k => if k1 = k then some v1 else oget rest k

/-- Property assignment: overwrite an existing key in place, else append. -/
def oset : JObj → String → JVal → JObj
  | [], k, v => [(k, v)]
  | (k1, v1) :: rest, k, v =>
    if k1 = k then (k, v) :: rest else (k1, v1) :: oset rest k v

/-- Object spread: write every overlay entry, in order, over the base. -/
def spreadInto (base overlay : JObj) : JObj :=
  overlay.foldl (fun acc kv => oset acc kv.1 kv.2) base

/-- Nullish coalescing with the inline default: undefined and null fall back
to the string "inline". -/
def jsOrInline (v : Option JVal) : JVal :=
  match v with
  | some .undef => .jstr "inline"
  | some .jnull => .jstr "inline"
  | some w => w
  | none => .jstr "inline"

/-- The expression meta optional-chain source, nullish-coalesced to inline. -/
def metaSource (meta : Option JObj) : JVal :=
  match meta with
  | none => .jstr "inline"
  | some m => jsOrInline (oget m "source")

/-- The metadata object literal: source default first, then the spread of the
caller meta (so later entries overwrite the default). -/
def docMetadata (meta : Option JObj) : JObj :=
  spreadInto [("source", metaSource meta)] (meta.getD [])

/-- An inline document of an ingest request body. -/
structure InlineDoc where
  content : String
  meta : Option JObj
deriving DecidableEq, Repr

/-- A LangChain Document: page content plus metadata. -/
structure RagDoc where
  pageContent : String
  metadata : JObj
deriving DecidableEq, Repr

/-- Shape of an ingest response; the two counts appear only on success. -/
structure IngestResult where
  success : Bool
  message : String
  chunksAdded : Nat
  documentsProcessed : Option Nat
  pdfsProcessed : Option Nat
deriving DecidableEq, Repr

/-- Build the Document stored for one inline doc. -/
def mkInlineDoc (d : InlineDoc) : RagDoc :=
  { pageContent := d.content, metadata := docMetadata d.meta }

/-- The ingest method.  loadPdf stands for loadPdfAsDocuments (one Document
per path), split for the configured text splitter, store for the vector
store contents.  The two booleans report whether the splitter and the vector
store add operation were invoked. -/
def ingest (docs : Option (List InlineDoc)) (pdfPaths : Option (List String))
    (loadPdf : String → RagDoc) (split : List RagDoc → List RagDoc)
    (store : List RagDoc) : IngestResult × List RagDoc × Bool × Bool :=
  let textDocs := (docs.getD []).map mkInlineDoc
  let pdfDocs := (pdfPaths.getD []).map loadPdf
  let allDocs := textDocs ++ pdfDocs
  if allDocs.isEmpty then
    ({ success := false, message := "No documents provided", chunksAdded := 0,
       documentsProcessed := none, pdfsProcessed := none }, store, false, false)
  else
    let splitDocs := split allDocs
    ({ success := true, message := "Documents ingested",
       chunksAdded := splitDocs.length,
       documentsProcessed := some allDocs.length,
       pdfsProcessed := some (pdfPaths.getD []).length },
     store ++ splitDocs, true, true)

/-! ## Store selector (chat.service.ts, init and waitForQdrant) -/

/-- Probe attempt budget of waitForQdrant. -/
def qdrantMaxAttempts : Nat := 5

/-- Delay in milliseconds between consecutive probe attempts. -/
def qdrantDelayMs : Nat := 2000

/-- The waitForQdrant retry loop: probe gives each attempt's outcome; the
result is (reachable, attempts made, delays slept), a delay being recorded
only between attempts. -/
def waitGo (probe : Nat → Bool) (delayMs : Nat) : Nat → Nat → Bool × Nat × List Nat
  | _, 0 => (false, 0, [])
  | attempt, remaining + 1 =>
    if probe attempt then (true, 1, [])
    else
      match remaining with
      | 0 => (false, 1, [])
      | r + 1 =>
        let res := waitGo probe delayMs (attempt + 1) (r + 1)
        (res.1, res.2.1 + 1, delayMs :: res.2.2)

/-- waitForQdrant with its default attempt count and delay. -/
def waitForQdrant (probe : Nat → Bool) (maxAttempts delayMs : Nat) :
    Bool × Nat × List Nat :=
  waitGo probe delayMs 1 maxAttempts

/-- Outcome of startup store selection: chosen backend, recorded fallback
reason, probes made and delays slept. -/
structure SelectorResult where
  kind : StoreKind
  fallbackReason : Option String
  probesMade : Nat
  delays : List Nat
deriving DecidableEq, Repr

/-- The init store-selection logic: no trimmed-nonempty endpoint goes
directly to the memory backend; otherwise probe, use Qdrant on success
(clientInitOk stands for the external Qdrant client constructor not
throwing), and fall back to memory with a recorded reason otherwise. -/
def initStore (qdrantUrl : Option String) (probe : Nat → Bool)
    (clientInitOk : Bool) : SelectorResult :=
  match qdrantUrl with
  | none => { kind := .memory, fallbackReason := none, probesMade := 0, delays := [] }
  | some u =>
    if (jsTrim u.toList).isEmpty then
      { kind := .memory, fallbackReason := none, probesMade := 0, delays := [] }
    else
      let w := waitForQdrant probe qdrantMaxAttempts qdrantDelayMs
      if w.1 then
        if clientInitOk then
          { kind := .qdrant, fallbackReason := none, probesMade := w.2.1, delays := w.2.2 }
        else
          { kind := .memory, fallbackReason := some "Qdrant client init failed",
            probesMade := w.2.1, delays := w.2.2 }
      else
        { kind := .memory, fallbackReason := some "Qdrant did not become ready in time",
          probesMade := w.2.1, delays := w.2.2 }

/-! ## Chunker -/

/-- Splitter loop for a nonempty separator: scan, cutting at every
non-overlapping occurrence of the separator, left to right. -/
def splitBySubGo (sep : List Char) : Nat → List Char → List Char → List (List Char)
  | 0, acc, t => [acc.reverse ++ t]
  | _ + 1, acc, [] => [acc.reverse]
  | fuel + 1, acc, c :: rest =>
    if sep.isPrefixOf (c :: rest) then
      acc.reverse :: splitBySubGo sep fuel [] (rest.drop (sep.length - 1))
    else
      splitBySubGo sep fuel (c :: acc) rest

/-- Modelled from the spec: JavaScript-style split of text on a separator,
the empty separator splitting into single characters (section 4.2's finest,
hard character split). -/
def splitOnSepStr (sep : List Char) (t : List Char) : List (List Char) :=
  match sep with
  | [] => t.map (fun c => [c])
  | _ :: _ => splitBySubGo sep (t.length + 1) [] t

/-- Modelled from the spec: the recursive splitting algorithm of section 4.2
(the RecursiveCharacterTextSplitter implementation is external library code,
absent from the repository; only its configuration is in chat.service.ts).
Split on the coarsest separator; every piece within the size budget is
emitted, every oversized piece recurses into the next-finer separator; a
piece left when no separator remains is emitted as-is.  Chunk overlap only
duplicates boundary context between adjacent chunks and is not modelled. -/
def recSplit (size : Nat) : List (List Char) → List Char → List (List Char)
  | [], t => [t]
  | sep :: rest, t =>
    (splitOnSepStr sep t).flatMap
      (fun piece => if piece.length ≤ size then [piece] else recSplit size rest piece)

/-- Configured chunk size (chat.service.ts). -/
def chunkSize : Nat := 1000

/-- Configured chunk overlap (chat.service.ts). -/
def chunkOverlap : Nat := 150

/-- Configured separators, coarsest to finest (chat.service.ts). -/
def chunkSeparators : List (List Char) :=
  ["\n\n".toList, "\n".toList, " ".toList, "".toList]

/-- The Chunker with the repository's configuration. -/
def splitText (t : List Char) : List (List Char) :=
  recSplit chunkSize chunkSeparators t

/-- Lookup of the last binding of a key, as object spread makes later
entries win. -/
def ogetLast (m : JObj) (k : String) : Option JVal := oget m.reverse k

/-- Raw bytes of the blank-form scenario: an AcroForm PDF carrying two
field-value entries. -/
def c1RawBytes : List Char :=
  "%PDF-1.7 /AcroForm 1 0 R /V (John Doe) /V (ORD-1001) trailer".toList

/-- Extracted text of the blank-form scenario: 30 underscore characters. -/
def c1BaseText : List Char := "______________________________".toList

/-! ## Helper lemmas -/

theorem setFold_eq_firstSeenFrom {α : Type} [DecidableEq α] (l : List α) :
    ∀ acc seen : List α, (∀ a, a ∈ acc ↔ a ∈ seen) →
      l.foldl (fun acc a => if a ∈ acc then acc else acc ++ [a]) acc =
        acc ++ firstSeenFrom seen l := by
  induction l with
  | nil => intro acc seen _; simp [firstSeenFrom]
  | cons x xs ih =>
    intro acc seen h
    by_cases hx : x ∈ seen
    · have hx2 : x ∈ acc := (h x).2 hx
      simp only [List.foldl_cons, if_pos hx2, firstSeenFrom, if_pos hx]
      exact ih acc seen h
    · have hx2 : x ∉ acc := fun hc => hx ((h x).1 hc)
      simp only [List.foldl_cons, if_neg hx2, firstSeenFrom, if_neg hx]
      rw [ih (acc ++ [x]) (x :: seen) (fun a => by
        simp only [List.mem_append, List.mem_singleton, List.mem_cons, h a]
        tauto)]
      simp

theorem jsSetDedup_eq {α : Type} [DecidableEq α] (l : List α) :
    jsSetDedup l = firstSeenDedup l := by
  simpa [jsSetDedup, firstSeenDedup] using setFold_eq_firstSeenFrom l [] [] (by simp)

theorem mem_of_mem_firstSeenFrom {α : Type} [DecidableEq α] :
    ∀ (l seen : List α) (a : α), a ∈ firstSeenFrom seen l → a ∈ l ∧ a ∉ seen := by
  intro l
  induction l with
  | nil => intro seen a h; simp [firstSeenFrom] at h
  | cons x xs ih =>
    intro seen a h
    by_cases hx : x ∈ seen
    · simp only [firstSeenFrom, if_pos hx] at h
      obtain ⟨h1, h2⟩ := ih seen a h
      exact ⟨List.mem_cons_of_mem _ h1, h2⟩
    · simp only [firstSeenFrom, if_neg hx] at h
      rcases List.mem_cons.1 h with rfl | h2
      · exact ⟨List.mem_cons_self _ _, hx⟩
      · obtain ⟨h3, h4⟩ := ih (x :: seen) a h2
        exact ⟨List.mem_cons_of_mem _ h3, fun hc => h4 (List.mem_cons_of_mem _ hc)⟩

theorem nodup_firstSeenFrom {α : Type} [DecidableEq α] :
    ∀ (l seen : List α), (firstSeenFrom seen l).Nodup := by
  intro l
  induction l with
  | nil => intro seen; simp [firstSeenFrom]
  | cons x xs ih =>
    intro seen
    by_cases hx : x ∈ seen
    · simpa [firstSeenFrom, hx] using ih seen
    · simp only [firstSeenFrom, if_neg hx]
      refine List.nodup_cons.2 ⟨fun hc => ?_, ih (x :: seen)⟩
      exact (mem_of_mem_firstSeenFrom xs (x :: seen) x hc).2 (List.mem_cons_self _ _)

theorem containsSub_iff (pat : List Char) :
    ∀ t, containsSub pat t = true ↔ pat <:+: t := by
  intro t
  induction t with
  | nil => simp [containsSub, List.infix_nil]
  | cons c rest ih => simp [containsSub, List.infix_cons_iff, ih]

theorem waitGo_bounds (probe : Nat → Bool) (d : Nat) :
    ∀ n a, (waitGo probe d a n).2.1 ≤ n ∧ ∀ x ∈ (waitGo probe d a n).2.2, x = d := by
  intro n
  induction n with
  | zero => intro a; simp [waitGo]
  | succ m ih =>
    intro a
    by_cases hp : probe a
    · cases m <;> simp [waitGo, hp]
    · cases m with
      | zero => simp [waitGo, hp]
      | succ r =>
        obtain ⟨h1, h2⟩ := ih (a + 1)
        refine ⟨?_, ?_⟩
        · simpa [waitGo, hp] using Nat.succ_le_succ h1
        · intro x hx
          simp only [waitGo, hp] at hx
          rcases List.mem_cons.1 hx with rfl | hx2
          · rfl
          · exact h2 x hx2

theorem waitGo_all_fail (probe : Nat → Bool) (d : Nat) :
    ∀ n a, (∀ i, a ≤ i → i < a + n → probe i = false) →
      waitGo probe d a n = (false, n, List.replicate (n - 1) d) := by
  intro n
  induction n with
  | zero => intro a _; simp [waitGo]
  | succ m ih =>
    intro a h
    have hpa : probe a = false := h a (Nat.le_refl a) (by omega)
    cases m with
    | zero => simp [waitGo, hpa]
    | succ r =>
      have hrec := ih (a + 1) (fun i h1 h2 => h i (by omega) (by omega))
      simp [waitGo, hpa, hrec, List.replicate_succ]

theorem waitGo_ready (probe : Nat → Bool) (d : Nat) :
    ∀ n a i, a ≤ i → i < a + n → probe i = true → (waitGo probe d a n).1 = true := by
  intro n
  induction n with
  | zero => intro a i h1 h2 _; omega
  | succ m ih =>
    intro a i h1 h2 hp
    by_cases hpa : probe a
    · cases m <;> simp [waitGo, hpa]
    · have hne : i ≠ a := fun he => hpa (he ▸ hp)
      cases m with
      | zero => exact absurd (by omega : i = a) hne
      | succ r =>
        simpa [waitGo, hpa] using ih (a + 1) i (by omega) (by omega) hp

theorem oget_oset_self : ∀ (o : JObj) (k : String) (v : JVal),
    oget (oset o k v) k = some v := by
  intro o
  induction o with
  | nil => intro k v; simp [oset, oget]
  | cons kv rest ih =>
    intro k v
    obtain ⟨k1, v1⟩ := kv
    by_cases hk : k1 = k
    · simp [oset, hk, oget]
    · simp [oset, hk, oget, ih]

theorem oget_oset_ne : ∀ (o : JObj) (k q : String) (v : JVal), q ≠ k →
    oget (oset o k v) q = oget o q := by
  intro o
  induction o with
  | nil => intro k q v hq; simp [oset, oget, Ne.symm hq]
  | cons kv rest ih =>
    intro k q v hq
    obtain ⟨k1, v1⟩ := kv
    by_cases hk : k1 = k
    · subst hk
      simp [oset, oget, Ne.symm hq]
    · simp [oset, hk, oget, ih k q v hq]

theorem oget_append : ∀ (a b : JObj) (k : String),
    oget (a ++ b) k =
      match oget a k with
      | some v => some v
      | none => oget b k := by
  intro a
  induction a with
  | nil => intro b k; simp [oget]
  | cons kv rest ih =>
    intro b k
    obtain ⟨k1, v1⟩ := kv
    by_cases hk : k1 = k
    · simp [oget, hk]
    · simp [oget, hk, ih]

theorem ogetLast_cons (kv : String × JVal) (m : JObj) (k : String) :
    ogetLast (kv :: m) k =
      match ogetLast m k with
      | some v => some v
      | none => oget [kv] k := by
  simp only [ogetLast, List.reverse_cons]
  rw [oget_append]

theorem oget_eq_none_of_not_mem : ∀ (m : JObj) (k : String),
    k ∉ m.map Prod.fst → oget m k = none := by
  intro m
  induction m with
  | nil => intro k _; rfl
  | cons kv rest ih =>
    intro k hk
    obtain ⟨k1, v1⟩ := kv
    simp only [List.map_cons, List.mem_cons] at hk
    push_neg at hk
    simp [oget, Ne.symm hk.1, ih k hk.2]

theorem ogetLast_eq_oget_of_nodup : ∀ m : JObj, (m.map Prod.fst).Nodup →
    ∀ k, ogetLast m k = oget m k := by
  intro m
  induction m with
  | nil => intro _ k; rfl
  | cons kv m ih =>
    intro hnd k
    obtain ⟨k0, v0⟩ := kv
    simp only [List.map_cons, List.nodup_cons] at hnd
    rw [ogetLast_cons]
    by_cases hk : k0 = k
    · subst hk
      have hnone : ogetLast m k0 = none := by
        unfold ogetLast
        apply oget_eq_none_of_not_mem
        simpa [List.map_reverse] using hnd.1
      simp [hnone, oget]
    · cases hm : ogetLast m k with
      | some v =>
        rw [ih hnd.2 k] at hm
        simp [hm, oget, hk]
      | none =>
        rw [ih hnd.2 k] at hm
        simp [hm, oget, hk]

theorem oget_spreadInto : ∀ (m base : JObj) (k : String),
    oget (spreadInto base m) k =
      match ogetLast m k with
      | some v => some v
      | none => oget base k := by
  intro m
  induction m with
  | nil => intro base k; simp [spreadInto, ogetLast, oget]
  | cons kv m ih =>
    intro base k
    obtain ⟨k0, v0⟩ := kv
    have hstep : spreadInto base ((k0, v0) :: m) = spreadInto (oset base k0 v0) m := rfl
    rw [hstep, ih, ogetLast_cons]
    cases hm : ogetLast m k with
    | some v => rfl
    | none =>
      by_cases hk : k0 = k
      · subst hk; simp [oget, oget_oset_self]
      · simp [oget, hk, oget_oset_ne _ _ _ _ (fun h => hk h.symm)]

theorem mem_recSplit_cons (size : Nat) (sep : List Char) (rest : List (List Char))
    (t c : List Char) (h : c ∈ recSplit size (sep :: rest) t) :
    ∃ p ∈ splitOnSepStr sep t,
      (p.length ≤ size ∧ c = p) ∨ (size < p.length ∧ c ∈ recSplit size rest p) := by
  simp only [recSplit, List.mem_flatMap] at h
  obtain ⟨p, hp, hc⟩ := h
  refine ⟨p, hp, ?_⟩
  by_cases hl : p.length ≤ size
  · exact Or.inl ⟨hl, by simpa [hl] using hc⟩
  · exact Or.inr ⟨by omega, by simpa [hl] using hc⟩

/-! ## Claim theorems -/

/-- Claim C1: for a PDF classified as a blank fillable form, the normalized
text is the newline-join of the trimmed, non-empty slash-V field values,
deduplicated preserving first-seen order, falling back to the raw extracted
text when no value is found. -/
theorem c1_blank_form_normalization (raw base : List Char)
    (h : isBlankFormPdf raw base = true) :
    normalizePdfText raw base =
      (if (firstSeenDedup (extractAcroFormValues raw)).isEmpty then base
       else joinNL (firstSeenDedup (extractAcroFormValues raw))) := by
  simp only [normalizePdfText, h, if_true, jsSetDedup_eq]

/-- Witness for C1: the spec scenario.  Raw bytes contain the AcroForm
marker and the entries for John Doe and ORD-1001; the extracted text is 30
underscores; the result is exactly the two-line text. -/
theorem c1_blank_form_normalization_witness :
    isBlankFormPdf c1RawBytes c1BaseText = true ∧
      normalizePdfText c1RawBytes c1BaseText = "John Doe\nORD-1001".toList :=
  ⟨by decide, (c1_blank_form_normalization c1RawBytes c1BaseText (by decide)).trans (by decide)⟩

/-- Claim C2: a PDF is classified as a blank fillable form exactly when the
raw byte stream contains the AcroForm marker and the extracted text has
strictly more than 20 underscores. -/
theorem c2_blank_form_detection (raw text : List Char) :
    isBlankFormPdf raw text = true ↔
      (acroFormMarker <:+: raw ∧ 20 < text.count '_') := by
  simp [isBlankFormPdf, Bool.and_eq_true, containsSub_iff]

/-- Claim C3: the non-blank-form cleanup applies, in this exact order,
blank-line collapsing, the three punctuation rejoin passes, the hyphen-space
fix, the split-number fix, and final per-line trim-and-drop; the concrete
conjuncts exercise each step. -/
theorem c3_cleanup_pipeline :
    (∀ t : List Char,
      cleanExtractedText t =
        joinNL
          (((splitNL (digitFix (hyphenFix (punctLead (punctTrail (punctBoth (collapseNL t))))))).map
              jsTrim).filter (fun l => !l.isEmpty))) ∧
    cleanExtractedText "a\n\n\nb".toList = "a\nb".toList ∧
    cleanExtractedText "INV\n-\n100".toList = "INV-100".toList ∧
    cleanExtractedText "x\n- y".toList = "x-y".toList ∧
    cleanExtractedText "20\n19".toList = "2019".toList ∧
    cleanExtractedText "  a  \n\n  b  ".toList = "a\nb".toList :=
  ⟨fun _ => rfl, by decide, by decide, by decide, by decide, by decide⟩

/-- Claim C4: on a successful query, the sources are the chunks' truthy
source values deduplicated preserving first-seen order and capped at the
first 10, hence at most 10 of them and without duplicates. -/
theorem c4_source_attribution (q : String) (docs : List ChunkDoc)
    (kind : StoreKind) (ans : String)
    (hq : jsTrim q.toList ≠ []) (hd : docs ≠ []) :
    (query q docs kind ans).1.sources =
        some ((firstSeenDedup (chunkSources docs)).take 10) ∧
      ((firstSeenDedup (chunkSources docs)).take 10).length ≤ 10 ∧
      ((firstSeenDedup (chunkSources docs)).take 10).Nodup := by
  have hq2 : ¬ jsTrim q.data = [] := hq
  refine ⟨?_, ?_, ?_⟩
  · simp [query, hq2, hd, sourcesOf, jsSetDedup_eq]
  · exact List.length_take_le 10 _
  · exact (List.take_sublist 10 _).nodup (nodup_firstSeenFrom _ _)

/-- Witness for C4: a five-chunk retrieval with a duplicate source, an empty
source and a missing source yields exactly the two distinct truthy
sources. -/
theorem c4_source_attribution_witness :
    jsTrim "q".toList ≠ [] ∧
      ([⟨"c1", some "x.pdf"⟩, ⟨"c2", some ""⟩, ⟨"c3", none⟩,
        ⟨"c4", some "x.pdf"⟩, ⟨"c5", some "y.pdf"⟩] : List ChunkDoc) ≠ [] ∧
      (query "q"
          [⟨"c1", some "x.pdf"⟩, ⟨"c2", some ""⟩, ⟨"c3", none⟩,
           ⟨"c4", some "x.pdf"⟩, ⟨"c5", some "y.pdf"⟩] .memory "a").1.sources =
        some ["x.pdf", "y.pdf"] := by
  refine ⟨by decide, by decide, ?_⟩
  rw [(c4_source_attribution "q"
    [⟨"c1", some "x.pdf"⟩, ⟨"c2", some ""⟩, ⟨"c3", none⟩,
     ⟨"c4", some "x.pdf"⟩, ⟨"c5", some "y.pdf"⟩] .memory "a" (by decide) (by decide)).1]
  decide

/-- Claim C5: a query whose retrieval returns zero chunks yields the
no-context result (success false, guidance answer, empty sources, context
count 0) and the generation model is not invoked. -/
theorem c5_no_context_guard (q : String) (kind : StoreKind) (ans : String)
    (hq : jsTrim q.toList ≠ []) :
    query q [] kind ans =
      ({ success := false, message := none, answer := some (noContextAnswer kind),
         sources := some [], contextCount := some 0 }, true, false) := by
  have hq2 : ¬ jsTrim q.data = [] := hq
  simp [query, hq2]

/-- Witness for C5: a concrete empty retrieval on the memory backend. -/
theorem c5_no_context_guard_witness :
    query "hi" [] .memory "unused" =
      ({ success := false, message := none,
         answer := some (noContextAnswer .memory),
         sources := some [], contextCount := some 0 }, true, false) :=
  c5_no_context_guard "hi" .memory "unused" (by decide)

/-- Claim C6: an empty or whitespace-only question is rejected with the
validation shape, and neither the embedding provider nor the generation
model is invoked. -/
theorem c6_empty_question_validation (q : String) (docs : List ChunkDoc)
    (kind : StoreKind) (ans : String) (hq : jsTrim q.toList = []) :
    query q docs kind ans =
      ({ success := false, message := some "Question cannot be empty",
         answer := some "", sources := some [], contextCount := none },
       false, false) := by
  have hq2 : jsTrim q.data = [] := hq
  simp [query, hq2]

/-- Witness for C6: a whitespace-only question with a non-empty store. -/
theorem c6_empty_question_validation_witness :
    query "  \t " [⟨"c", some "s.pdf"⟩] .qdrant "unused" =
      ({ success := false, message := some "Question cannot be empty",
         answer := some "", sources := some [], contextCount := none },
       false, false) :=
  c6_empty_question_validation "  \t " [⟨"c", some "s.pdf"⟩] .qdrant "unused" (by decide)

/-- Claim C7: with no endpoint the selector goes directly to the ephemeral
backend without probing; with an endpoint it probes at most 5 times with
2000 ms between attempts, reaches Qdrant on a successful probe, falls back
to memory with a recorded reason on exhaustion, and in every case yields a
working backend. -/
theorem c7_store_selection (probe : Nat → Bool) (clientOk : Bool) (u : String) :
    initStore none probe clientOk =
        { kind := .memory, fallbackReason := none, probesMade := 0, delays := [] } ∧
      qdrantMaxAttempts = 5 ∧ qdrantDelayMs = 2000 ∧
      ((jsTrim u.toList).isEmpty = false →
        ((initStore (some u) probe clientOk).probesMade ≤ 5 ∧
         (∀ d ∈ (initStore (some u) probe clientOk).delays, d = 2000) ∧
         ((∀ i, 1 ≤ i → i ≤ 5 → probe i = false) →
           initStore (some u) probe clientOk =
             { kind := .memory,
               fallbackReason := some "Qdrant did not become ready in time",
               probesMade := 5, delays := [2000, 2000, 2000, 2000] }) ∧
         ((∃ i, 1 ≤ i ∧ i ≤ 5 ∧ probe i = true) → clientOk = true →
           (initStore (some u) probe clientOk).kind = .qdrant ∧
             (initStore (some u) probe clientOk).fallbackReason = none))) ∧
      ((initStore (some u) probe clientOk).kind = .memory ∨
        (initStore (some u) probe clientOk).kind = .qdrant) := by
  refine ⟨rfl, rfl, rfl, ?_, ?_⟩
  · intro hu
    have hu2 : ¬ jsTrim u.data = [] := by
      intro he
      have h3 : (jsTrim u.toList).isEmpty = true := by
        show (jsTrim u.data).isEmpty = true
        rw [he]
        rfl
      exact Bool.noConfusion (h3.symm.trans hu)
    obtain ⟨hcnt, hdel⟩ := waitGo_bounds probe 2000 5 1
    refine ⟨?_, ?_, ?_, ?_⟩
    · simp only [initStore, hu, Bool.false_eq_true, if_false, waitForQdrant,
        qdrantMaxAttempts, qdrantDelayMs]
      split_ifs <;> exact hcnt
    · intro x hx
      apply hdel x
      simp only [initStore, hu, Bool.false_eq_true, if_false, waitForQdrant,
        qdrantMaxAttempts, qdrantDelayMs] at hx
      revert hx
      split_ifs <;> exact id
    · intro hall
      have hw : waitGo probe 2000 1 5 = (false, 5, List.replicate 4 2000) :=
        waitGo_all_fail probe 2000 5 1 (fun i h1 h2 => hall i h1 (by omega))
      simp [initStore, hu2, waitForQdrant, qdrantMaxAttempts, qdrantDelayMs, hw,
        List.replicate]
    · rintro ⟨i, h1, h5, hp⟩ hc
      have hr : (waitGo probe 2000 1 5).1 = true :=
        waitGo_ready probe 2000 5 1 i h1 (by omega) hp
      constructor <;>
        simp [initStore, hu2, waitForQdrant, qdrantMaxAttempts, qdrantDelayMs, hr, hc]
  · cases hk : (initStore (some u) probe clientOk).kind
    · exact Or.inl rfl
    · exact Or.inr rfl

/-- Witness for C7: a probe that succeeds on the third attempt reaches
Qdrant; a probe that always fails falls back to memory after 5 attempts
with 4 delays of 2000 ms. -/
theorem c7_store_selection_witness :
    (initStore (some "http://localhost:6333") (fun i => decide (i = 3)) true).kind =
        .qdrant ∧
      initStore (some "http://localhost:6333") (fun _ => false) true =
        { kind := .memory,
          fallbackReason := some "Qdrant did not become ready in time",
          probesMade := 5, delays := [2000, 2000, 2000, 2000] } := by
  constructor
  · exact (((c7_store_selection (fun i => decide (i = 3)) true
      "http://localhost:6333").2.2.2.1 (by decide)).2.2.2
        ⟨3, by decide, by decide, by decide⟩ rfl).1
  · exact ((c7_store_selection (fun _ => false) true
      "http://localhost:6333").2.2.2.1 (by decide)).2.2.1 (fun i h1 h2 => rfl)

/-- Claim C8: every chunk emitted by the Chunker with the configured size,
overlap and separators is within the size budget, except a piece that no
separator can split further, which is emitted as-is. -/
theorem c8_chunk_size_budget (t c : List Char) (h : c ∈ splitText t) :
    c.length ≤ chunkSize ∨ ∀ sep ∈ chunkSeparators, splitOnSepStr sep c = [c] := by
  left
  obtain ⟨p1, hp1, h1⟩ := mem_recSplit_cons _ _ _ _ _ h
  rcases h1 with ⟨hle, rfl⟩ | ⟨_, h2⟩
  · exact hle
  obtain ⟨p2, hp2, h2c⟩ := mem_recSplit_cons _ _ _ _ _ h2
  rcases h2c with ⟨hle, rfl⟩ | ⟨_, h3⟩
  · exact hle
  obtain ⟨p3, hp3, h3c⟩ := mem_recSplit_cons _ _ _ _ _ h3
  rcases h3c with ⟨hle, rfl⟩ | ⟨_, h4⟩
  · exact hle
  obtain ⟨p4, hp4, h4c⟩ := mem_recSplit_cons _ _ _ _ _ h4
  have hone : p4.length = 1 := by
    have : p4 ∈ p3.map (fun ch => [ch]) := by
      simpa [splitOnSepStr] using hp4
    obtain ⟨ch, _, rfl⟩ := List.mem_map.1 this
    rfl
  rcases h4c with ⟨hle, rfl⟩ | ⟨hgt, _⟩
  · exact hle
  · exact absurd hgt (by simp [hone, chunkSize])

/-- Witness for C8: a short text passes through as a single chunk within
the budget. -/
theorem c8_chunk_size_budget_witness :
    "hello world".toList ∈ splitText "hello world".toList ∧
      ("hello world".toList.length ≤ chunkSize ∨
        ∀ sep ∈ chunkSeparators,
          splitOnSepStr sep "hello world".toList = ["hello world".toList]) :=
  ⟨by decide, c8_chunk_size_budget "hello world".toList "hello world".toList (by decide)⟩

/-- Claim C9: the stored metadata defaults source to inline exactly when the
caller meta is absent or lacks a source key; a present source key, even an
explicit undefined, overwrites the default because the meta spread comes
after it; all other keys pass through unchanged. -/
theorem c9_metadata_spread :
    oget (docMetadata none) "source" = some (JVal.jstr "inline") ∧
      ∀ m : JObj, (m.map Prod.fst).Nodup →
        (oget m "source" = none →
          oget (docMetadata (some m)) "source" = some (JVal.jstr "inline")) ∧
        (∀ v, oget m "source" = some v →
          oget (docMetadata (some m)) "source" = some v) ∧
        (∀ k, k ≠ "source" → oget (docMetadata (some m)) k = oget m k) := by
  refine ⟨by decide, ?_⟩
  intro m hnd
  have hspread : ∀ k, oget (docMetadata (some m)) k =
      match ogetLast m k with
      | some v => some v
      | none => oget [("source", metaSource (some m))] k :=
    fun k => oget_spreadInto m _ k
  refine ⟨?_, ?_, ?_⟩
  · intro h0
    have hl : ogetLast m "source" = none := by
      rw [ogetLast_eq_oget_of_nodup m hnd]; exact h0
    rw [hspread, hl]
    simp [oget, metaSource, jsOrInline, h0]
  · intro v hv
    have hl : ogetLast m "source" = some v := by
      rw [ogetLast_eq_oget_of_nodup m hnd]; exact hv
    rw [hspread, hl]
  · intro k hk
    rw [hspread]
    cases hm : ogetLast m k with
    | some v =>
      rw [ogetLast_eq_oget_of_nodup m hnd] at hm
      simp [hm]
    | none =>
      rw [ogetLast_eq_oget_of_nodup m hnd] at hm
      simp [hm, oget, Ne.symm hk]

/-- Witness for C9: a meta with an explicit undefined source and one other
key; the undefined value overwrites the inline default and the other key
passes through. -/
theorem c9_metadata_spread_witness :
    oget (docMetadata (some [("source", JVal.undef), ("qty", JVal.jstr "2")]))
        "source" = some JVal.undef ∧
      oget (docMetadata (some [("source", JVal.undef), ("qty", JVal.jstr "2")]))
        "qty" = some (JVal.jstr "2") ∧
      oget (docMetadata none) "source" = some (JVal.jstr "inline") := by
  refine ⟨?_, ?_, c9_metadata_spread.1⟩
  · exact (c9_metadata_spread.2 [("source", JVal.undef), ("qty", JVal.jstr "2")]
      (by decide)).2.1 JVal.undef (by decide)
  · rw [(c9_metadata_spread.2 [("source", JVal.undef), ("qty", JVal.jstr "2")]
      (by decide)).2.2 "qty" (by decide)]
    decide

/-- Claim C10: an ingest request with no inline docs and no pdf paths fails
with the no-documents response, invokes neither the splitter nor the vector
store add, and leaves the store unchanged. -/
theorem c10_empty_ingest (docs : Option (List InlineDoc))
    (pdfPaths : Option (List String)) (loadPdf : String → RagDoc)
    (split : List RagDoc → List RagDoc) (store : List RagDoc)
    (h1 : docs = none ∨ docs = some [])
    (h2 : pdfPaths = none ∨ pdfPaths = some []) :
    ingest docs pdfPaths loadPdf split store =
      ({ success := false, message := "No documents provided", chunksAdded := 0,
         documentsProcessed := none, pdfsProcessed := none }, store, false, false) := by
  rcases h1 with rfl | rfl <;> rcases h2 with rfl | rfl <;> rfl

/-- Witness for C10: an empty request against a one-document store leaves
the store as it was. -/
theorem c10_empty_ingest_witness :
    ingest none (some [])
        (fun p => { pageContent := "", metadata := [("source", JVal.jstr p)] })
        (fun l => l) [{ pageContent := "d", metadata := [] }] =
      ({ success := false, message := "No documents provided", chunksAdded := 0,
         documentsProcessed := none, pdfsProcessed := none },
       [{ pageContent := "d", metadata := [] }], false, false) :=
  c10_empty_ingest none (some []) _ _ _ (Or.inl rfl) (Or.inr rfl)

end Rag
